import Mathlib

/-!
Verification of the diagnosis views of the MedWebsite repository
(`backend/diagnosis/views.py`) against its natural-language specification.

The embedding is shallow: the Django request handlers become Lean functions
over explicit parameters standing for the module-level globals (`model`,
`diseases_list`), the ORM table (a list of disease records) and the request
data (method and the submitted `symptoms` list).  The NumPy feature vector
holds only the exact float values 0.0 and 1.0 and is embedded as `List Nat`
(cast to `ℚ` at the classifier boundary), probability arrays are `List ℚ`,
Python exceptions are `Except String`, and `np.argsort` is a stable
ascending sort of the index list.  Python's `difflib.get_close_matches` (standard library, outside this
repository) is embedded from its documented algorithm, parametric in the
`SequenceMatcher.ratio` similarity so that the structural facts hold for any
similarity function; a concrete executable `difflibRatio` follows difflib's
matching-blocks computation for the junk-free case (queries shorter than the
autojunk limit).
-/

set_option maxRecDepth 10000

/-- A stored `Disease` row (`backend/diagnosis/models.py`): name is unique
(case-sensitively) at the database level. -/
structure DiseaseRec where
  name : String
  description : String
  treatment : String
  symptoms : List String
  severity : String
  specialist : String
  category : String
deriving DecidableEq

/-- The dictionary shape returned by `get_disease_info_from_db`. -/
structure DiseaseInfo where
  description : String
  treatment : String
  symptoms : List String
  severity : String
  specialist : String
  category : String
deriving DecidableEq

instance exceptDecidableEq {ε α : Type} [DecidableEq ε] [DecidableEq α] :
    DecidableEq (Except ε α) := fun
  | .ok a, .ok b =>
    if h : a = b then .isTrue (by rw [h]) else .isFalse (by simp [h])
  | .error e, .error f =>
    if h : e = f then .isTrue (by rw [h]) else .isFalse (by simp [h])
  | .ok _, .error _ => .isFalse (by simp)
  | .error _, .ok _ => .isFalse (by simp)

/-- Case folding performed by the database for Django's `__iexact` lookup:
ASCII letters and Russian Cyrillic letters are lowered, everything else kept. -/
def foldChar (c : Char) : Char :=
  if 'A' ≤ c ∧ c ≤ 'Z' then Char.ofNat (c.toNat + 32)
  else if 'А' ≤ c ∧ c ≤ 'Я' then Char.ofNat (c.toNat + 32)
  else if c = 'Ё' then 'ё'
  else c

/-- Case folding of a whole string (the `LOWER` both sides of `__iexact`). -/
def foldName (s : String) : String :=
  ⟨s.data.map foldChar⟩

/-- The rows matching `Disease.objects.get(name__iexact=disease_name)`,
in table order. -/
def iexactMatches (db : List DiseaseRec) (disease_name : String) : List DiseaseRec :=
  db.filter (fun d => foldName d.name = foldName disease_name)

/-- The synthetic placeholder returned for an unknown disease
(`views.py`, the `Disease.DoesNotExist` branch of `get_disease_info_from_db`). -/
def unknownDiseaseInfo (disease_name : String) : DiseaseInfo :=
  { description := "Информация о заболевании '" ++ disease_name ++
      "' готовится нашими специалистами. Обратитесь к врачу для точной диагностики и лечения."
    treatment := "Для назначения лечения обратитесь к квалифицированному медицинскому специалисту. Не занимайтесь самолечением."
    symptoms := ["Информация уточняется"]
    severity := "unknown"
    specialist := "Терапевт"
    category := "Уточняется" }

/-- The views module's `get_disease_info_from_db`.  `Disease.objects.get`
returns the single `__iexact` match, raises `DoesNotExist` on zero matches
(the only exception the function catches, answered by the placeholder) and
raises `MultipleObjectsReturned` — uncaught — on several matches. -/
def get_disease_info_from_db (db : List DiseaseRec) (disease_name : String) :
    Except String DiseaseInfo :=
  match iexactMatches db disease_name with
  | [d] => .ok
      { description := d.description
        treatment := d.treatment
        symptoms := d.symptoms
        severity := d.severity
        specialist := d.specialist
        category := d.category }
  | [] => .ok (unknownDiseaseInfo disease_name)
  | _ => .error "MultipleObjectsReturned"

/-- The views module's `get_disease_description` (indexes the dictionary). -/
def get_disease_description (db : List DiseaseRec) (disease_name : String) :
    Except String String :=
  (get_disease_info_from_db db disease_name).map (fun i => i.description)

/-- The views module's `get_disease_treatment`. -/
def get_disease_treatment (db : List DiseaseRec) (disease_name : String) :
    Except String String :=
  (get_disease_info_from_db db disease_name).map (fun i => i.treatment)

/-- The views module's `get_severity_display`: a Python dict `.get` with
default `"НЕОПРЕДЕЛЕНА"`, written as the equivalent chain of key tests. -/
def get_severity_display (severity : String) : String :=
  if severity = "high" then "ВЫСОКАЯ"
  else if severity = "medium" then "СРЕДНЯЯ"
  else if severity = "low" then "НИЗКАЯ"
  else if severity = "unknown" then "НЕОПРЕДЕЛЕНА"
  else if severity = "variable" then "ЗАВИСИТ ОТ СТАДИИ"
  else "НЕОПРЕДЕЛЕНА"

/-- Python's `str.startswith`, as a prefix test on the character list. -/
def startswith (s pre : String) : Bool :=
  pre.data.isPrefixOf s.data

/-- The marker phrase `disease_detail` tests for with `startswith` to decide
the not-found condition. -/
def markerPhrase : String :=
  "Информация о заболевании"

/-- The loaded classifier: its frozen label set (`model.classes_`) and the
`predict_proba` call, fallible like any Python call. -/
structure MLModel where
  classes : List String
  predict_proba : List ℚ → Except String (List ℚ)

/-- The feature-vector encoding loop of `predict` (`views.py` lines 132-138):
start from `np.zeros(len(current_symptoms))` and set position
`current_symptoms.index(symptom)` to 1 for every submitted name found in the
vocabulary.  The float vector holds exactly the integers 0 and 1, so it is
embedded as `List Nat` and cast to `ℚ` at the classifier boundary. -/
def encodeVector (vocab selected : List String) : List Nat :=
  selected.foldl
    (fun v s => if s ∈ vocab then v.set (vocab.indexOf s) 1 else v)
    (List.replicate vocab.length 0)

/-- The comparison key realised by a stable ascending `np.argsort`: index `i`
precedes index `j` when its probability is smaller, or equal with `i ≤ j`. -/
def argsortKey (p : List ℚ) (i j : Nat) : Prop :=
  p.getD i 0 < p.getD j 0 ∨ (p.getD i 0 = p.getD j 0 ∧ i ≤ j)

instance argsortKeyDecidable (p : List ℚ) : DecidableRel (argsortKey p) :=
  fun i j => inferInstanceAs (Decidable (_ ∨ _))

instance argsortKeyTotal (p : List ℚ) : IsTotal Nat (argsortKey p) := ⟨by
  intro i j
  unfold argsortKey
  rcases lt_trichotomy (p.getD i 0) (p.getD j 0) with h | h | h
  · exact Or.inl (Or.inl h)
  · rcases Nat.le_total i j with hij | hij
    · exact Or.inl (Or.inr ⟨h, hij⟩)
    · exact Or.inr (Or.inr ⟨h.symm, hij⟩)
  · exact Or.inr (Or.inl h)⟩

instance argsortKeyTrans (p : List ℚ) : IsTrans Nat (argsortKey p) := ⟨by
  intro a b c hab hbc
  unfold argsortKey at *
  rcases hab with h1 | ⟨e1, l1⟩ <;> rcases hbc with h2 | ⟨e2, l2⟩
  · exact Or.inl (h1.trans h2)
  · exact Or.inl (by rw [← e2]; exact h1)
  · exact Or.inl (by rw [e1]; exact h2)
  · exact Or.inr ⟨e1.trans e2, l1.trans l2⟩⟩

/-- `np.argsort(probabilities)`: the indices `0 … n-1` in ascending order of
probability (stable, so ties keep index order). -/
def argsort (p : List ℚ) : List Nat :=
  List.insertionSort (argsortKey p) (List.range p.length)

/-- `np.argsort(probabilities)[-5:][::-1]` (`views.py` line 153): the last
five entries of the ascending argsort, reversed. -/
def top5_indices (p : List ℚ) : List Nat :=
  ((argsort p).drop (p.length - 5)).reverse

/-- One entry of the rendered results list (`views.py` lines 161-169; the
purely display-side `percentage` string formatting of the same probability is
not modelled). -/
structure ResultItem where
  disease : String
  probability : ℚ
  description : String
  treatment : String
deriving DecidableEq

/-- The pages the diagnosis views render; every one is produced by Django's
`render` with its default HTTP status. -/
inductive Response where
  | resultsPage (results : List ResultItem) (symptoms_count : Nat) (selected : List String)
  | errorPage (error : String)
  | homePage
  | detailPage (disease_name : String) (info : DiseaseInfo) (is_from_knowledge_base : Bool)
  | notFoundPage (searched_disease : String) (suggestions : List String)
deriving DecidableEq

/-- HTTP status of a rendered page: every `render` call in `views.py` uses
the framework default 200. -/
def httpStatus : Response → Nat :=
  fun _ => 200

/-- The body of `predict`'s `try` block, for a POST request with a loaded
model: encode, reject an all-zero vector, call the classifier, rank, and
enrich the top five.  Any step's failure short-circuits as `.error`. -/
def predictBody (vocab : List String) (m : MLModel) (diseases_list : List String)
    (db : List DiseaseRec) (selected : List String) : Except String Response :=
  let input_vector := encodeVector vocab selected
  if input_vector.sum = 0 then
    .ok (.errorPage "Пожалуйста, выберите хотя бы один симптом")
  else do
    let probabilities ← m.predict_proba (input_vector.map (fun n => (n : ℚ)))
    let results ← (top5_indices probabilities).mapM (fun idx => do
      let disease_name ← match diseases_list.get? idx with
        | some nm => Except.ok nm
        | none => Except.error "list index out of range"
      let probability ← match probabilities.get? idx with
        | some p => Except.ok p
        | none => Except.error "list index out of range"
      let descr ← get_disease_description db disease_name
      let treat ← get_disease_treatment db disease_name
      Except.ok
        { disease := disease_name
          probability := probability
          description := descr
          treatment := treat : ResultItem })
    .ok (.resultsPage results selected.length selected)

/-- The `predict` view (`views.py` lines 113-190): on a POST with a loaded
model run the body and turn any exception into the analysis-error page;
otherwise fall through to the home page. -/
def predict (model? : Option MLModel) (vocab diseases_list : List String)
    (db : List DiseaseRec) (is_post : Bool) (selected : List String) : Response :=
  match model?, is_post with
  | some m, true =>
    match predictBody vocab m diseases_list db selected with
    | .ok r => r
    | .error e => .errorPage ("Произошла ошибка при анализе симптомов: " ++ e)
  | _, _ => .homePage

/-- Length of the longest common prefix of two character lists. -/
def prefLen : List Char → List Char → Nat
  | x :: xs, y :: ys => if x = y then prefLen xs ys + 1 else 0
  | _, _ => 0

/-- Longest matching block between `a` and `b` as difflib's
`find_longest_match` documents it for junk-free input: the triple
`(i, j, size)` with maximal size, ties resolved to the earliest `i`, then the
earliest `j`. -/
def bestMatch (a b : List Char) : Nat × Nat × Nat :=
  (List.range (a.length + 1)).foldl
    (fun acc i =>
      (List.range (b.length + 1)).foldl
        (fun acc2 j =>
          let k := prefLen (a.drop i) (b.drop j)
          if k > acc2.2.2 then (i, j, k) else acc2)
        acc)
    (0, 0, 0)

/-- Total size of difflib's matching blocks: recursively split around the
longest match.  The fuel argument dominates the recursion depth (each level
removes at least one character). -/
def matchingSizeAux : Nat → List Char → List Char → Nat
  | 0, _, _ => 0
  | fuel + 1, a, b =>
    match bestMatch a b with
    | (i, j, k) =>
      if k = 0 then 0
      else
        k + matchingSizeAux fuel (a.take i) (b.take j) +
          matchingSizeAux fuel (a.drop (i + k)) (b.drop (j + k))

/-- Total size of difflib's matching blocks between two character lists. -/
def matchingSize (a b : List Char) : Nat :=
  matchingSizeAux (a.length + b.length + 1) a b

/-- Python's `difflib.SequenceMatcher(None, x, word).ratio()` for junk-free
input: `2*M/T` with `M` the matching-block total and `T` the total length,
and 1 for two empty sequences. -/
def difflibRatio (x word : String) : ℚ :=
  let a := x.data
  let b := word.data
  if a.length + b.length = 0 then 1
  else mkRat (2 * matchingSize a b) (a.length + b.length)

/-- Descending order on difflib's `(score, word)` pairs as Python compares
the tuples: larger score first, equal scores resolved by the string order. -/
def pairDesc (p q : ℚ × String) : Prop :=
  q.1 < p.1 ∨ (q.1 = p.1 ∧ q.2 ≤ p.2)

instance pairDescDecidable : DecidableRel pairDesc :=
  fun p q => inferInstanceAs (Decidable (_ ∨ _))

instance pairDescTotal : IsTotal (ℚ × String) pairDesc := ⟨by
  intro p q
  unfold pairDesc
  rcases lt_trichotomy p.1 q.1 with h | h | h
  · exact Or.inr (Or.inl h)
  · rcases le_total q.2 p.2 with hs | hs
    · exact Or.inl (Or.inr ⟨h.symm, hs⟩)
    · exact Or.inr (Or.inr ⟨h, hs⟩)
  · exact Or.inl (Or.inl h)⟩

instance pairDescTrans : IsTrans (ℚ × String) pairDesc := ⟨by
  intro a b c hab hbc
  unfold pairDesc at *
  rcases hab with h1 | ⟨e1, l1⟩ <;> rcases hbc with h2 | ⟨e2, l2⟩
  · exact Or.inl (h2.trans h1)
  · exact Or.inl (by rw [e2]; exact h1)
  · exact Or.inl (by rw [← e1]; exact h2)
  · exact Or.inr ⟨e2.trans e1, l2.trans l1⟩⟩

/-- `heapq.nlargest(n, result)` on difflib's score/word pairs: the first `n`
of the stable descending sort. -/
def nlargest (n : Nat) (l : List (ℚ × String)) : List (ℚ × String) :=
  (List.insertionSort pairDesc l).take n

/-- Python's `difflib.get_close_matches(word, possibilities, n, cutoff)`
parametric in the `SequenceMatcher.ratio` similarity: keep the possibilities
scoring at least `cutoff` (the `real_quick_ratio`/`quick_ratio` tests are
upper bounds of `ratio` and filter nothing more), take the `n` largest by
score, and return the words. -/
def get_close_matches (ratio : String → String → ℚ) (word : String)
    (possibilities : List String) (n : Nat) (cutoff : ℚ) : List String :=
  let result := (possibilities.filter (fun x => cutoff ≤ ratio x word)).map
    (fun x => (ratio x word, x))
  (nlargest n result).map (fun p => p.2)

/-- The views module's `get_disease_suggestions`: the label list is
`model.classes_` when a model is loaded and empty otherwise; an empty label
list short-circuits to no suggestions. -/
def get_disease_suggestions (model? : Option MLModel)
    (ratio : String → String → ℚ) (searched_name : String) : List String :=
  let all_diseases := match model? with
    | some m => m.classes
    | none => []
  if all_diseases = [] then []
  else get_close_matches ratio searched_name all_diseases 5 (mkRat 3 10)

/-- The `disease_detail` view (`views.py` lines 241-290): resolve the record,
decide the not-found condition by the marker phrase at the start of the
description, and render the matching page.  An exception from the resolver
(`MultipleObjectsReturned`) propagates. -/
def disease_detail (model? : Option MLModel) (ratio : String → String → ℚ)
    (db : List DiseaseRec) (is_from_knowledge_base : Bool) (disease_name : String) :
    Except String Response := do
  let disease_info ← get_disease_info_from_db db disease_name
  if startswith disease_info.description markerPhrase then
    return Response.notFoundPage disease_name
      (match model? with
        | some _ => get_disease_suggestions model? ratio disease_name
        | none => [])
  else
    return Response.detailPage disease_name disease_info is_from_knowledge_base

/-!
Helper lemmas: the feature-vector encoder.
-/

theorem encode_foldl_length (vocab : List String) (sel : List String) :
    ∀ v : List Nat,
      (sel.foldl (fun v s => if s ∈ vocab then v.set (vocab.indexOf s) 1 else v) v).length
        = v.length := by
  induction sel with
  | nil => intro v; rfl
  | cons s rest ih =>
    intro v
    simp only [List.foldl_cons]
    rw [ih]
    by_cases h : s ∈ vocab <;> simp [h]

theorem encodeVector_length (vocab selected : List String) :
    (encodeVector vocab selected).length = vocab.length := by
  unfold encodeVector
  rw [encode_foldl_length, List.length_replicate]

theorem indexOf_getElem_of_nodup (vocab : List String) (hnd : vocab.Nodup)
    (i : Nat) (hi : i < vocab.length) : List.indexOf vocab[i] vocab = i := by
  have hmem : vocab[i] ∈ vocab := List.getElem_mem hi
  have hlt : List.indexOf vocab[i] vocab < vocab.length := List.indexOf_lt_length.2 hmem
  exact (hnd.getElem_inj_iff.1 (List.getElem_indexOf hlt))

theorem encode_foldl_getD (vocab : List String) (hnd : vocab.Nodup) (sel : List String) :
    ∀ (v : List Nat), v.length = vocab.length → ∀ (i : Nat) (hi : i < vocab.length),
      (sel.foldl (fun v s => if s ∈ vocab then v.set (vocab.indexOf s) 1 else v) v).getD i 0
        = if vocab[i] ∈ sel then 1 else v.getD i 0 := by
  induction sel with
  | nil =>
    intro v hv i hi
    rw [List.foldl_nil, if_neg (List.not_mem_nil _)]
  | cons s rest ih =>
    intro v hv i hi
    have hvl : (if s ∈ vocab then v.set (vocab.indexOf s) 1 else v).length = vocab.length := by
      by_cases h : s ∈ vocab <;> simp [h, hv]
    have hvi : i < v.length := by rw [hv]; exact hi
    rw [List.foldl_cons, ih _ hvl i hi]
    simp only [List.mem_cons]
    by_cases hr : vocab[i] ∈ rest
    · rw [if_pos hr, if_pos (Or.inr hr)]
    · rw [if_neg hr]
      by_cases he : vocab[i] = s
      · have hs : s ∈ vocab := he ▸ List.getElem_mem hi
        have hidx : List.indexOf s vocab = i := by
          rw [← he]; exact indexOf_getElem_of_nodup vocab hnd i hi
        rw [if_pos (Or.inl he), if_pos hs, hidx]
        have hset : i < (v.set i 1).length := by
          rw [List.length_set]; exact hvi
        rw [List.getD_eq_getElem _ _ hset]
        exact List.getElem_set_self hset
      · rw [if_neg (not_or.2 ⟨he, hr⟩)]
        by_cases hs : s ∈ vocab
        · have hlt : List.indexOf s vocab < vocab.length := List.indexOf_lt_length.2 hs
          have hne : List.indexOf s vocab ≠ i := by
            intro hci
            apply he
            have hgi := List.getElem_indexOf hlt
            simp only [hci] at hgi
            exact hgi
          rw [if_pos hs]
          rw [List.getD_eq_getElem v 0 hvi]
          have hset : i < (v.set (List.indexOf s vocab) 1).length := by
            rw [List.length_set]; exact hvi
          rw [List.getD_eq_getElem _ _ hset]
          exact List.getElem_set_ne hne hset
        · rw [if_neg hs]

theorem encodeVector_getD (vocab selected : List String) (hnd : vocab.Nodup)
    (i : Nat) (hi : i < vocab.length) :
    (encodeVector vocab selected).getD i 0 = if vocab[i] ∈ selected then 1 else 0 := by
  unfold encodeVector
  rw [encode_foldl_getD vocab hnd selected _ (List.length_replicate _ _) i hi]
  by_cases hm : vocab[i] ∈ selected
  · rw [if_pos hm, if_pos hm]
  · rw [if_neg hm, if_neg hm]
    rw [List.getD_eq_getElem _ _ (by simpa using hi)]
    exact List.getElem_replicate _ _

theorem encodeVector_eq_map (vocab selected : List String) (hnd : vocab.Nodup) :
    encodeVector vocab selected = vocab.map (fun s => if s ∈ selected then 1 else 0) := by
  apply List.ext_getElem
  · rw [encodeVector_length, List.length_map]
  · intro n h1 h2
    have hn : n < vocab.length := by rw [encodeVector_length] at h1; exact h1
    rw [← List.getD_eq_getElem _ (0 : Nat) h1, encodeVector_getD vocab selected hnd n hn,
      List.getElem_map]

theorem encodeVector_count (vocab selected : List String) (hnd : vocab.Nodup) :
    (encodeVector vocab selected).count 1
      = (vocab.filter (fun s => s ∈ selected)).length := by
  rw [encodeVector_eq_map vocab selected hnd, List.count_eq_countP, List.countP_map,
    ← List.countP_eq_length_filter]
  apply List.countP_congr
  intro s _
  by_cases hm : s ∈ selected <;> simp [hm, Function.comp]

theorem encodeVector_unknown_head (vocab selected : List String) (u : String)
    (hu : u ∉ vocab) :
    encodeVector vocab (u :: selected) = encodeVector vocab selected := by
  unfold encodeVector
  rw [List.foldl_cons, if_neg hu]

theorem encodeVector_membership (vocab selected selected2 : List String) (hnd : vocab.Nodup)
    (h : ∀ s, s ∈ selected ↔ s ∈ selected2) :
    encodeVector vocab selected = encodeVector vocab selected2 := by
  rw [encodeVector_eq_map vocab selected hnd, encodeVector_eq_map vocab selected2 hnd]
  apply List.map_congr_left
  intro s _
  by_cases hm : s ∈ selected
  · rw [if_pos hm, if_pos ((h s).1 hm)]
  · rw [if_neg hm, if_neg (fun h2 => hm ((h s).2 h2))]

theorem encodeVector_of_unknown (vocab selected : List String)
    (h : ∀ s ∈ selected, s ∉ vocab) :
    encodeVector vocab selected = List.replicate vocab.length 0 := by
  unfold encodeVector
  induction selected with
  | nil => rfl
  | cons s rest ih =>
    rw [List.foldl_cons, if_neg (h s (List.mem_cons_self s rest))]
    exact ih (fun t ht => h t (List.mem_cons_of_mem s ht))

theorem sum_zero_of_unknown (vocab selected : List String)
    (h : ∀ s ∈ selected, s ∉ vocab) :
    (encodeVector vocab selected).sum = 0 := by
  rw [encodeVector_of_unknown vocab selected h, List.sum_replicate, smul_zero]

/-!
Helper lemmas: the top-5 selector.
-/

theorem argsort_perm (p : List ℚ) : (argsort p).Perm (List.range p.length) :=
  List.perm_insertionSort _ _

theorem argsort_length (p : List ℚ) : (argsort p).length = p.length := by
  rw [(argsort_perm p).length_eq, List.length_range]

theorem argsort_sorted (p : List ℚ) : (argsort p).Pairwise (argsortKey p) :=
  List.sorted_insertionSort _ _

theorem argsort_nodup (p : List ℚ) : (argsort p).Nodup :=
  (argsort_perm p).nodup_iff.2 (List.nodup_range p.length)

theorem top5_length (p : List ℚ) : (top5_indices p).length = min 5 p.length := by
  unfold top5_indices
  rw [List.length_reverse, List.length_drop, argsort_length]
  omega

theorem top5_pairwise (p : List ℚ) :
    (top5_indices p).Pairwise (fun i j => argsortKey p j i) := by
  unfold top5_indices
  rw [List.pairwise_reverse]
  exact (argsort_sorted p).sublist (List.drop_sublist _ _)

theorem top5_nodup (p : List ℚ) : (top5_indices p).Nodup := by
  unfold top5_indices
  rw [List.nodup_reverse]
  exact (argsort_nodup p).sublist (List.drop_sublist _ _)

theorem top5_subset_range (p : List ℚ) : ∀ i ∈ top5_indices p, i < p.length := by
  intro i hi
  unfold top5_indices at hi
  rw [List.mem_reverse] at hi
  have h1 : i ∈ argsort p := (List.drop_sublist _ _).subset hi
  exact List.mem_range.1 ((argsort_perm p).mem_iff.1 h1)

theorem top5_complete (p : List ℚ) (h : p.length ≤ 5) :
    ∀ i, i < p.length → i ∈ top5_indices p := by
  intro i hi
  unfold top5_indices
  rw [List.mem_reverse, Nat.sub_eq_zero_of_le h, List.drop_zero]
  exact (argsort_perm p).mem_iff.2 (List.mem_range.2 hi)

/-!
Helper lemmas: the not-found marker and the close-matches selector.
-/

theorem startswith_append (pre t : String) : startswith (pre ++ t) pre = true := by
  unfold startswith
  rw [String.data_append]
  exact List.isPrefixOf_iff_prefix.2 (List.prefix_append pre.data t.data)

theorem unknown_description_marker (disease_name : String) :
    startswith (unknownDiseaseInfo disease_name).description markerPhrase = true := by
  have hsplit : (unknownDiseaseInfo disease_name).description
      = markerPhrase ++ (" '" ++ disease_name ++
        "' готовится нашими специалистами. Обратитесь к врачу для точной диагностики и лечения.") := by
    show ("Информация о заболевании '" ++ disease_name ++
        "' готовится нашими специалистами. Обратитесь к врачу для точной диагностики и лечения.")
      = markerPhrase ++ (" '" ++ disease_name ++
        "' готовится нашими специалистами. Обратитесь к врачу для точной диагностики и лечения.")
    have h1 : ("Информация о заболевании '" : String) = markerPhrase ++ " '" := by decide
    rw [h1, String.append_assoc, String.append_assoc, String.append_assoc]
  rw [hsplit]
  exact startswith_append _ _

theorem get_close_matches_length (ratio : String → String → ℚ) (word : String)
    (possibilities : List String) (n : Nat) (cutoff : ℚ) :
    (get_close_matches ratio word possibilities n cutoff).length ≤ n := by
  unfold get_close_matches nlargest
  rw [List.length_map, List.length_take]
  exact min_le_left _ _

theorem get_close_matches_mem (ratio : String → String → ℚ) (word : String)
    (possibilities : List String) (n : Nat) (cutoff : ℚ) :
    ∀ s ∈ get_close_matches ratio word possibilities n cutoff,
      s ∈ possibilities ∧ cutoff ≤ ratio s word := by
  intro s hs
  unfold get_close_matches nlargest at hs
  obtain ⟨pr, hpr, rfl⟩ := List.mem_map.1 hs
  have h1 := List.mem_of_mem_take hpr
  have h2 := ((List.perm_insertionSort pairDesc _).mem_iff).1 h1
  obtain ⟨x, hx, hxe⟩ := List.mem_map.1 h2
  obtain ⟨hxp, hxc⟩ := List.mem_filter.1 hx
  cases hxe
  exact ⟨hxp, of_decide_eq_true hxc⟩

theorem get_close_matches_sorted (ratio : String → String → ℚ) (word : String)
    (possibilities : List String) (n : Nat) (cutoff : ℚ) :
    (get_close_matches ratio word possibilities n cutoff).Pairwise
      (fun s t => ratio t word ≤ ratio s word) := by
  unfold get_close_matches nlargest
  rw [List.pairwise_map]
  have hall : ∀ pr ∈ (List.insertionSort pairDesc
      ((possibilities.filter fun x => decide (cutoff ≤ ratio x word)).map
        fun x => (ratio x word, x))).take n, pr.1 = ratio pr.2 word := by
    intro pr hpr
    have h1 := List.mem_of_mem_take hpr
    have h2 := ((List.perm_insertionSort pairDesc _).mem_iff).1 h1
    obtain ⟨x, hx, hxe⟩ := List.mem_map.1 h2
    cases hxe
    rfl
  have htake := List.Pairwise.sublist (List.take_sublist n _)
    (List.sorted_insertionSort pairDesc
      ((possibilities.filter fun x => decide (cutoff ≤ ratio x word)).map
        fun x => (ratio x word, x)))
  refine htake.imp_of_mem ?_
  intro a b ha hb hab
  have ha1 := hall a ha
  have hb1 := hall b hb
  rcases hab with h | ⟨e, _⟩
  · rw [← ha1, ← hb1]; exact le_of_lt h
  · rw [← ha1, ← hb1]; exact le_of_eq e

/-!
The claims.
-/

/-- C1: for every duplicate-free symptom vocabulary (names are the identity
of symptoms) and every submitted list of names, the encoded vector has the
vocabulary's length, position `i` is 1 exactly when `vocab[i]` was submitted
and 0 otherwise, names outside the vocabulary are silently ignored, the
vector depends only on the membership set of the submission (so not on its
order), and the number of ones is the size of the intersection of the
submitted set with the vocabulary. -/
theorem C1_feature_vector_encoding (vocab selected : List String) (hnd : vocab.Nodup) :
    (encodeVector vocab selected).length = vocab.length
  ∧ (∀ (i : Nat) (hi : i < vocab.length),
      (encodeVector vocab selected).getD i 0 = if vocab[i] ∈ selected then 1 else 0)
  ∧ (∀ u, u ∉ vocab → encodeVector vocab (u :: selected) = encodeVector vocab selected)
  ∧ (encodeVector vocab selected).count 1 = (vocab.filter (fun s => s ∈ selected)).length
  ∧ (∀ selected2, (∀ s, s ∈ selected ↔ s ∈ selected2) →
      encodeVector vocab selected = encodeVector vocab selected2) :=
  ⟨encodeVector_length vocab selected,
   fun i hi => encodeVector_getD vocab selected hnd i hi,
   fun u hu => encodeVector_unknown_head vocab selected u hu,
   encodeVector_count vocab selected hnd,
   fun selected2 h => encodeVector_membership vocab selected selected2 hnd h⟩

/-- Witness for C1 at a concrete vocabulary and submission: one of the two
submitted names is in the two-name vocabulary, so the vector is `[0, 1]`
with one 1. -/
theorem C1_feature_vector_encoding_witness :
    (encodeVector ["кашель", "насморк"] ["насморк", "икота"]).count 1
        = ((["кашель", "насморк"] : List String).filter
            (fun s => s ∈ (["насморк", "икота"] : List String))).length
  ∧ (encodeVector ["кашель", "насморк"] ["насморк", "икота"]).length = 2
  ∧ encodeVector ["кашель", "насморк"] ["насморк", "икота"] = [0, 1] := by
  have h := C1_feature_vector_encoding ["кашель", "насморк"] ["насморк", "икота"] (by decide)
  exact ⟨h.2.2.2.1, h.1, by decide⟩

/-- C2: for every probability array the top-5 selector returns
`min 5 (number of classes)` indices, ordered by descending probability; the
indices are pairwise distinct and all valid class indices, and when fewer
than 5 classes exist every class index occurs in the result — so all of
them are returned in descending order. -/
theorem C2_topk_length_sorted (p : List ℚ) :
    (top5_indices p).length = min 5 p.length
  ∧ (top5_indices p).Pairwise (fun i j => p.getD j 0 ≤ p.getD i 0)
  ∧ (top5_indices p).Nodup
  ∧ (∀ i ∈ top5_indices p, i < p.length)
  ∧ (p.length ≤ 5 → ∀ i, i < p.length → i ∈ top5_indices p) := by
  refine ⟨top5_length p, (top5_pairwise p).imp ?_, top5_nodup p,
    top5_subset_range p, top5_complete p⟩
  intro i j h
  rcases h with h | ⟨e, _⟩
  · exact le_of_lt h
  · exact le_of_eq e

/-- Witness for C2 at a concrete input: with two classes, both are returned,
in descending probability order. -/
theorem C2_topk_length_sorted_witness :
    (top5_indices [mkRat 1 2, mkRat 3 4]).length = min 5 2
  ∧ top5_indices [mkRat 1 2, mkRat 3 4] = [1, 0] := by
  have h := C2_topk_length_sorted [mkRat 1 2, mkRat 3 4]
  exact ⟨h.1, by decide⟩

/-- C4: a POST submission whose encoded vector is all zeros is answered by
the dedicated select-at-least-one-symptom error page for every classifier
(so without invoking it), and a submission of only unknown names behaves
exactly like an empty submission. -/
theorem C4_zero_vector_rejected (m : MLModel) (vocab diseases_list : List String)
    (db : List DiseaseRec) (selected : List String) :
    ((encodeVector vocab selected).sum = 0 →
      predict (some m) vocab diseases_list db true selected =
        Response.errorPage "Пожалуйста, выберите хотя бы один симптом")
  ∧ ((∀ s ∈ selected, s ∉ vocab) →
      predict (some m) vocab diseases_list db true selected =
        predict (some m) vocab diseases_list db true []) := by
  constructor
  · intro h
    simp only [predict, predictBody, h, if_pos]
  · intro h
    have h1 : (encodeVector vocab selected).sum = 0 := sum_zero_of_unknown vocab selected h
    have h2 : (encodeVector vocab ([] : List String)).sum = 0 :=
      sum_zero_of_unknown vocab [] (by intro s hs; exact absurd hs (List.not_mem_nil s))
    simp only [predict, predictBody, h1, h2, if_pos]

/-- Witness for C4 at a concrete input: a submission of one out-of-vocabulary
name gives the error page and coincides with the empty submission. -/
theorem C4_zero_vector_rejected_witness :
    predict (some (MLModel.mk ["Грипп"] (fun _ => Except.ok [1])))
        ["кашель"] ["Грипп"] [] true ["чихание"]
      = Response.errorPage "Пожалуйста, выберите хотя бы один симптом"
  ∧ predict (some (MLModel.mk ["Грипп"] (fun _ => Except.ok [1])))
        ["кашель"] ["Грипп"] [] true ["чихание"]
      = predict (some (MLModel.mk ["Грипп"] (fun _ => Except.ok [1])))
        ["кашель"] ["Грипп"] [] true [] := by
  have h := C4_zero_vector_rejected (MLModel.mk ["Грипп"] (fun _ => Except.ok [1]))
    ["кашель"] ["Грипп"] [] ["чихание"]
  exact ⟨h.1 (by decide), h.2 (by decide)⟩

/-- C5: every exception of the prediction computation (the whole `try` body,
in particular a failing classifier call on a non-zero vector) is caught and
turned into the rendered analysis-error page, and the handler's response
always carries HTTP status 200 — no exception escapes as an unhandled
fault. -/
theorem C5_exceptions_caught (m : MLModel) (vocab diseases_list : List String)
    (db : List DiseaseRec) (selected : List String) :
    (∀ e, predictBody vocab m diseases_list db selected = Except.error e →
      predict (some m) vocab diseases_list db true selected =
        Response.errorPage ("Произошла ошибка при анализе симптомов: " ++ e))
  ∧ httpStatus (predict (some m) vocab diseases_list db true selected) = 200
  ∧ (∀ e, (encodeVector vocab selected).sum ≠ 0 →
      m.predict_proba ((encodeVector vocab selected).map (fun n => (n : ℚ))) = Except.error e →
      predict (some m) vocab diseases_list db true selected =
        Response.errorPage ("Произошла ошибка при анализе симптомов: " ++ e)) := by
  refine ⟨?_, rfl, ?_⟩
  · intro e h
    simp only [predict, h]
  · intro e hnz hc
    have hbody : predictBody vocab m diseases_list db selected = Except.error e := by
      simp only [predictBody, if_neg hnz, hc]
      rfl
    simp only [predict, hbody]

/-- Witness for C5 at a concrete input: a classifier that raises on a
one-symptom submission yields the analysis-error page with the exception's
message, at status 200. -/
theorem C5_exceptions_caught_witness :
    predict (some (MLModel.mk ["Грипп"] (fun _ => Except.error "boom")))
        ["кашель"] ["Грипп"] [] true ["кашель"]
      = Response.errorPage ("Произошла ошибка при анализе симптомов: " ++ "boom")
  ∧ httpStatus (predict (some (MLModel.mk ["Грипп"] (fun _ => Except.error "boom")))
        ["кашель"] ["Грипп"] [] true ["кашель"]) = 200 := by
  have h := C5_exceptions_caught (MLModel.mk ["Грипп"] (fun _ => Except.error "boom"))
    ["кашель"] ["Грипп"] [] ["кашель"]
  exact ⟨h.2.2 "boom" (by decide) (by decide), h.2.1⟩

/-- C6: for every disease name with no `__iexact` match in the table, the
resolver returns (never fails on) the synthetic placeholder: severity
`"unknown"`, the generic default specialist `"Терапевт"`, and a description
starting with the marker phrase callers test for. -/
theorem C6_unknown_disease_placeholder (db : List DiseaseRec) (disease_name : String)
    (h : ∀ d ∈ db, foldName d.name ≠ foldName disease_name) :
    get_disease_info_from_db db disease_name = Except.ok (unknownDiseaseInfo disease_name)
  ∧ (unknownDiseaseInfo disease_name).severity = "unknown"
  ∧ (unknownDiseaseInfo disease_name).specialist = "Терапевт"
  ∧ startswith (unknownDiseaseInfo disease_name).description markerPhrase = true := by
  have hnil : iexactMatches db disease_name = [] := by
    unfold iexactMatches
    rw [List.filter_eq_nil_iff]
    intro d hd
    simpa using h d hd
  refine ⟨?_, rfl, rfl, unknown_description_marker disease_name⟩
  unfold get_disease_info_from_db
  rw [hnil]

/-- Witness for C6 at a concrete input: looking up a name absent from a
one-row table returns the placeholder. -/
theorem C6_unknown_disease_placeholder_witness :
    get_disease_info_from_db [DiseaseRec.mk "Грипп" "d" "t" [] "high" "s" "c"] "Ангина"
      = Except.ok (unknownDiseaseInfo "Ангина")
  ∧ (unknownDiseaseInfo "Ангина").severity = "unknown"
  ∧ (unknownDiseaseInfo "Ангина").specialist = "Терапевт"
  ∧ startswith (unknownDiseaseInfo "Ангина").description markerPhrase = true :=
  C6_unknown_disease_placeholder [DiseaseRec.mk "Грипп" "d" "t" [] "high" "s" "c"] "Ангина"
    (by decide)

/-- C7: the severity formatter maps the five known codes to their display
strings and every other string to the same display string as `"unknown"`,
raising no error on any input (it is a total function). -/
theorem C7_severity_formatter_total :
    get_severity_display "high" = "ВЫСОКАЯ"
  ∧ get_severity_display "medium" = "СРЕДНЯЯ"
  ∧ get_severity_display "low" = "НИЗКАЯ"
  ∧ get_severity_display "unknown" = "НЕОПРЕДЕЛЕНА"
  ∧ get_severity_display "variable" = "ЗАВИСИТ ОТ СТАДИИ"
  ∧ (∀ s : String, s ∉ (["high", "medium", "low", "unknown", "variable"] : List String) →
      get_severity_display s = "НЕОПРЕДЕЛЕНА") := by
  refine ⟨rfl, rfl, rfl, rfl, rfl, ?_⟩
  intro s hs
  simp only [List.mem_cons, List.not_mem_nil, or_false, not_or] at hs
  obtain ⟨h1, h2, h3, h4, h5⟩ := hs
  unfold get_severity_display
  rw [if_neg h1, if_neg h2, if_neg h3, if_neg h4, if_neg h5]

/-- Witness for C7 at a concrete unrecognized code. -/
theorem C7_severity_formatter_total_witness :
    get_severity_display "critical" = "НЕОПРЕДЕЛЕНА" :=
  C7_severity_formatter_total.2.2.2.2.2 "critical" (by decide)

/-- Counterexample to C8: lookup is not invariant under the casing of an
unmatched query, because the not-found placeholder embeds the query string
as typed — `"GRIP"` and `"grip"` fold to the same name yet give different
results on an empty table. -/
theorem C8_case_insensitive_counterexample :
    foldName "GRIP" = foldName "grip"
  ∧ get_disease_info_from_db [] "GRIP" ≠ get_disease_info_from_db [] "grip" := by decide

/-- C8 amended: the set of matching rows is invariant under the casing of
the query, and whenever at least one row matches, the whole lookup result is
the same for all casings of the name; only the not-found placeholder
differs, since its description quotes the query verbatim. -/
theorem C8_case_insensitive_amended (db : List DiseaseRec) (q1 q2 : String)
    (h : foldName q1 = foldName q2) :
    iexactMatches db q1 = iexactMatches db q2
  ∧ (iexactMatches db q1 ≠ [] →
      get_disease_info_from_db db q1 = get_disease_info_from_db db q2) := by
  have hm : iexactMatches db q1 = iexactMatches db q2 := by
    unfold iexactMatches
    apply List.filter_congr
    intro d _
    simp [h]
  refine ⟨hm, fun hne => ?_⟩
  unfold get_disease_info_from_db
  rw [hm]
  rw [hm] at hne
  cases hx : iexactMatches db q2 with
  | nil => exact absurd hx hne
  | cons d rest =>
    cases rest with
    | nil => rfl
    | cons d2 rest2 => rfl

/-- Witness for C8 amended at a concrete input: the stored row `"Grip"`
matches the queries `"GRIP"` and `"grip"`, and both lookups return it. -/
theorem C8_case_insensitive_amended_witness :
    iexactMatches [DiseaseRec.mk "Grip" "d" "t" [] "high" "s" "c"] "GRIP"
      = iexactMatches [DiseaseRec.mk "Grip" "d" "t" [] "high" "s" "c"] "grip"
  ∧ (iexactMatches [DiseaseRec.mk "Grip" "d" "t" [] "high" "s" "c"] "GRIP" ≠ [] →
      get_disease_info_from_db [DiseaseRec.mk "Grip" "d" "t" [] "high" "s" "c"] "GRIP"
        = get_disease_info_from_db [DiseaseRec.mk "Grip" "d" "t" [] "high" "s" "c"] "grip") :=
  C8_case_insensitive_amended [DiseaseRec.mk "Grip" "d" "t" [] "high" "s" "c"] "GRIP" "grip"
    (by decide)

/-- Counterexample to C9: `difflib.get_close_matches` keeps candidates whose
similarity is at least the cutoff, so a candidate at similarity exactly 0.3
(here `2*3/(17+3)`, a value the float computation also hits exactly) is
returned although its similarity is not above the threshold. -/
theorem C9_suggestions_counterexample :
    get_disease_suggestions (some (MLModel.mk ["abcxxxxxxxxxxxxxx"] (fun _ => Except.ok [])))
        difflibRatio "abc" = ["abcxxxxxxxxxxxxxx"]
  ∧ difflibRatio "abcxxxxxxxxxxxxxx" "abc" = mkRat 3 10
  ∧ ¬ mkRat 3 10 < difflibRatio "abcxxxxxxxxxxxxxx" "abc" := by decide

/-- C9 amended: for every similarity function, loaded classifier and query,
the suggestions are at most 5 names drawn from the classifier's label set,
each with similarity at least (not strictly above) the 0.3 cutoff, ordered
by similarity descending; with no classifier loaded the result is empty. -/
theorem C9_suggestions_amended (ratio : String → String → ℚ) (m : MLModel) (q : String) :
    (get_disease_suggestions (some m) ratio q).length ≤ 5
  ∧ (∀ s ∈ get_disease_suggestions (some m) ratio q,
      s ∈ m.classes ∧ mkRat 3 10 ≤ ratio s q)
  ∧ (get_disease_suggestions (some m) ratio q).Pairwise (fun s t => ratio t q ≤ ratio s q)
  ∧ get_disease_suggestions none ratio q = [] := by
  refine ⟨?_, ?_, ?_, rfl⟩ <;> unfold get_disease_suggestions <;>
    by_cases hc : m.classes = []
  · simp [hc]
  · simp only [hc, if_false]
    exact get_close_matches_length ratio q m.classes 5 (mkRat 3 10)
  · simp [hc]
  · simp only [hc, if_false]
    exact get_close_matches_mem ratio q m.classes 5 (mkRat 3 10)
  · simp [hc]
  · simp only [hc, if_false]
    exact get_close_matches_sorted ratio q m.classes 5 (mkRat 3 10)

/-- C10: with the record resolved, `disease_detail` renders the not-found
page (with suggestions) exactly when the resolved description starts with
the marker phrase, and the detail page otherwise — so a stored record whose
description happens to begin with the phrase is rendered as not found. -/
theorem C10_marker_decides_not_found (model? : Option MLModel)
    (ratio : String → String → ℚ) (db : List DiseaseRec) (kb : Bool)
    (disease_name : String) (info : DiseaseInfo)
    (h : get_disease_info_from_db db disease_name = Except.ok info) :
    disease_detail model? ratio db kb disease_name =
      Except.ok (if startswith info.description markerPhrase
        then Response.notFoundPage disease_name
          (match model? with
            | some _ => get_disease_suggestions model? ratio disease_name
            | none => [])
        else Response.detailPage disease_name info kb) := by
  unfold disease_detail
  rw [h]
  by_cases hsw : startswith info.description markerPhrase
  · simp [bind, Except.bind, pure, Except.pure, hsw]
  · simp [bind, Except.bind, pure, Except.pure, hsw]

/-- Witness for C10 at a concrete input: a stored record whose description
begins with the marker phrase is looked up successfully and still rendered
as not found. -/
theorem C10_marker_decides_not_found_witness :
    disease_detail none difflibRatio
      [DiseaseRec.mk "Грипп" "Информация о заболевании — черновик" "t" [] "high" "s" "c"]
      false "Грипп"
      = Except.ok (Response.notFoundPage "Грипп" []) := by
  have h := C10_marker_decides_not_found none difflibRatio
    [DiseaseRec.mk "Грипп" "Информация о заболевании — черновик" "t" [] "high" "s" "c"]
    false "Грипп"
    (DiseaseInfo.mk "Информация о заболевании — черновик" "t" [] "high" "s" "c")
    (by decide)
  exact h.trans (by decide)
